import Mathlib

/-!
A shallow embedding of the scoreboard demo server
(`src/problem6/demo/server.js`) of the `code-challenge` repository.

Timestamps are integers (milliseconds).  A JavaScript `Map` is embedded as an
association list in insertion order: `Map.prototype.set` replaces the value of
an existing key in place and appends a fresh key at the end, and mutation of a
stored record object is embedded as in-place replacement of the list element.
The JWT layer (`jsonwebtoken`) is embedded abstractly: an action token is
either a blob that fails verification, or a signed payload together with its
expiry time, and `jwt.verify` succeeds exactly on signed tokens whose expiry
lies strictly in the future (the library rejects a token once the clock
reaches `exp`).
-/

/-- One record of the `users` map of `server.js` (lines 32 and 37-46). -/
structure User where
  id : String
  username : String
  password : String
  score : Int
  totalActions : Int
deriving DecidableEq

/-- The payload signed into an action token (`server.js` lines 178-188). -/
structure ActionTokenPayload where
  actionId : String
  userId : String
  actionType : String
  timestamp : Int
  nonce : String
deriving DecidableEq

/-- An action-token JWT as seen by `jwt.verify`: either a forged/garbage blob
(no valid signature) or a genuinely signed payload carrying its expiry time in
milliseconds (`expiresIn: '5m'` at issue time). -/
inductive Jwt where
  | invalid : Jwt
  | signed (payload : ActionTokenPayload) (expMs : Int) : Jwt
deriving DecidableEq

/-- `jwt.verify` (`verifyToken`, `server.js` lines 53-59): `none` on a forged
blob or once the clock has reached the token expiry. -/
def verifyToken (now : Int) (t : Jwt) : Option ActionTokenPayload :=
  match t with
  | .invalid => none
  | .signed p expMs => if now < expMs then some p else none

/-- One record of the `actionTokens` map (`server.js` lines 191-196). -/
structure StoredToken where
  token : Jwt
  userId : String
  used : Bool
  createdAt : Int
deriving DecidableEq

/-- One element of a leaderboard response (`server.js` lines 65-71); the
`updatedAt` field is `new Date().toISOString()` at query time, embedded as the
query-time millisecond clock. -/
structure LeaderboardEntry where
  rank : Nat
  userId : String
  username : String
  score : Int
  updatedAt : Int
deriving DecidableEq

/-- The distinct error payloads the complete-action and my-score handlers can
produce, one constructor per `res.status(...).json(...)` return site.  The
corresponding JSON messages are recorded by `errorMessage`. -/
inductive ApiError where
  | invalidActionToken : ApiError
  | tokenUsedOrExpired : ApiError
  | rateLimitExceeded : ApiError
  | suspiciousCompletionTime : ApiError
  | internalError : ApiError
deriving DecidableEq

/-- The JSON `error` strings of `server.js` (lines 216, 222, 229, 237); a
synchronous throw surfaces as the Express default 500 response. -/
def errorMessage : ApiError → String
  | .invalidActionToken => "Invalid action token"
  | .tokenUsedOrExpired => "Token already used or expired"
  | .rateLimitExceeded => "Rate limit exceeded"
  | .suspiciousCompletionTime => "Suspicious completion time"
  | .internalError => "Internal Server Error"

/-- The observable body of a complete-action response. -/
structure ApiResponse where
  status : Nat
  success : Bool
  error : Option ApiError
  retryAfter : Option Int
  scoreIncrement : Option Int
  newScore : Option Int
  rank : Option Int
deriving DecidableEq

/-- A socket.io emission (`io.emit`, `server.js` lines 256-268). -/
inductive SocketEvent where
  | leaderboardUpdate (board : List LeaderboardEntry) (updatedAt : Int)
  | scoreUpdate (userId : String) (oldScore newScore increment newRank : Int)
deriving DecidableEq

/-- The three in-memory stores of `server.js` (lines 32-34): `users` holds the
map values in insertion order, `actionTokens` maps action id to stored token,
`rateLimits` maps user id to the recorded action timestamps. -/
structure ServerState where
  users : List User
  actionTokens : List (String × StoredToken)
  rateLimits : List (String × List Int)
deriving DecidableEq

/-- The data of one authenticated `POST /api/actions/complete` request:
`userId` comes from the verified auth JWT (`req.user.userId`), the rest from
the body; `proofCompletionTime` is `proof.completionTime` (`none` embeds a
missing/undefined field), and `now` is the server clock while handling. -/
structure CompleteRequest where
  userId : String
  actionToken : Jwt
  actionId : String
  proofCompletionTime : Option Int
  now : Int
deriving DecidableEq

/-- The full effect of one complete-action request: the HTTP response, the
resulting store state, and the socket events emitted (in order). -/
structure CompleteResult where
  response : ApiResponse
  state : ServerState
  events : List SocketEvent
deriving DecidableEq

/-- `Map.prototype.get` on an association list. -/
def mapFind {β : Type} (m : List (String × β)) (k : String) : Option β :=
  match m with
  | [] => none
  | (k', v) :: rest => if k' = k then some v else mapFind rest k

/-- `Map.prototype.set` on an association list: replace in place, else append. -/
def mapSet {β : Type} (m : List (String × β)) (k : String) (v : β) :
    List (String × β) :=
  match m with
  | [] => [(k, v)]
  | (k', v') :: rest =>
    if k' = k then (k, v) :: rest else (k', v') :: mapSet rest k v

/-- `users.get(userId)` over the stored user records. -/
def findUser (us : List User) (uid : String) : Option User :=
  match us with
  | [] => none
  | u :: rest => if u.id = uid then some u else findUser rest uid

/-- In-place mutation of the user record held by the `users` map: the list
order is unchanged and the first record with the given id is replaced. -/
def updateUser (us : List User) (uid : String) (u' : User) : List User :=
  match us with
  | [] => []
  | u :: rest =>
    if u.id = uid then u' :: rest else u :: updateUser rest uid u'

/-- The sliding-window filter of `checkRateLimit` (`server.js` line 79):
timestamps strictly newer than one minute ago. -/
def recentTimes (now : Int) (times : List Int) : List Int :=
  times.filter (fun t => decide (now - t < 60000))

/-- `checkRateLimit` (`server.js` lines 74-88): returns the decision and the
resulting `rateLimits` map (which is updated only on acceptance, when the new
timestamp is pushed onto the filtered window). -/
def checkRateLimit (rl : List (String × List Int)) (uid : String) (now : Int) :
    Bool × List (String × List Int) :=
  let userLimits := (mapFind rl uid).getD []
  let recent := recentTimes now userLimits
  if 10 ≤ recent.length then (false, rl)
  else (true, mapSet rl uid (recent ++ [now]))

/-- `proof.completionTime || 10000` (`server.js` line 235): a missing field and
the falsy number `0` both fall back to the 10000 ms default. -/
def effectiveCompletionTime : Option Int → Int
  | none => 10000
  | some v => if v = 0 then 10000 else v

/-- The anti-cheat timing condition (`server.js` line 236):
`completionTime < 1000 || completionTime > 300000`. -/
def completionTimeSuspicious (ct : Int) : Bool :=
  decide (ct < 1000) || decide (300000 < ct)

/-- One step of the stable descending sort performed by
`Array.from(users.values()).sort((a, b) => b.score - a.score)`: walk past the
strictly higher scores, then insert (so earlier elements stay ahead of
equal-scored later ones, as ECMAScript stable sort guarantees). -/
def insertDesc (u : User) : List User → List User
  | [] => [u]
  | v :: vs => if u.score < v.score then v :: insertDesc u vs else u :: v :: vs

/-- The stable sort by descending `score` of `getLeaderboard`
(`server.js` line 63). -/
def sortDesc : List User → List User
  | [] => []
  | v :: vs => insertDesc v (sortDesc vs)

/-- `Array.prototype.slice(0, e)`: a negative end counts from the end of the
array, clamped at zero. -/
def jsSliceTo {α : Type} (l : List α) (e : Int) : List α :=
  if 0 ≤ e then l.take e.toNat else l.take ((l.length : Int) + e).toNat

/-- The `.map((user, index) => ({rank: index + 1, ...}))` step of
`getLeaderboard` (`server.js` lines 65-71), with `i` the index of the first
element. -/
def withRanks (now : Int) : Nat → List User → List LeaderboardEntry
  | _, [] => []
  | i, u :: us =>
    { rank := i + 1, userId := u.id, username := u.username, score := u.score,
      updatedAt := now } :: withRanks now (i + 1) us

/-- `getLeaderboard(limit)` (`server.js` lines 61-72). -/
def getLeaderboard (users : List User) (limit : Int) (now : Int) :
    List LeaderboardEntry :=
  withRanks now 0 (jsSliceTo (sortDesc users) limit)

/-- Index of the first entry with the given user id, if any. -/
def entryIdx (uid : String) : List LeaderboardEntry → Option Nat
  | [] => none
  | e :: l => if e.userId = uid then some 0 else (entryIdx uid l).map (· + 1)

/-- `Array.prototype.findIndex` on leaderboard entries: `-1` when absent. -/
def jsFindIndexEntry (uid : String) (l : List LeaderboardEntry) : Int :=
  match entryIdx uid l with
  | some i => (i : Int)
  | none => -1

/-- The rank computation shared by the complete-action handler
(`server.js` lines 251-253) and the my-score handler (lines 286-295):
`getLeaderboard(100).findIndex(entry => entry.userId === userId) + 1`. -/
def rankOf (users : List User) (uid : String) (now : Int) : Int :=
  jsFindIndexEntry uid (getLeaderboard users 100 now) + 1

/-- An error return site of the complete-action handler: nothing mutated,
nothing emitted. -/
def failResult (s : ServerState) (st : Nat) (e : ApiError) : CompleteResult :=
  { response :=
      { status := st, success := false, error := some e, retryAfter := none,
        scoreIncrement := none, newScore := none, rank := none },
    state := s, events := [] }

/-- The 429 return site (`server.js` lines 227-231), which also reports
`retryAfter: 60`. -/
def rateLimitedResult (s : ServerState) : CompleteResult :=
  { response :=
      { status := 429, success := false, error := some .rateLimitExceeded,
        retryAfter := some 60, scoreIncrement := none, newScore := none,
        rank := none },
    state := s, events := [] }

/-- The `POST /api/actions/complete` handler (`server.js` lines 209-279).
The branches mirror the source in order: verify the action token and its user
binding, look the token up and reject a used or unknown one, run the rate
limiter (whose accepted timestamp persists even if a later check fails), run
the timing check, mark the token used, and only then mutate the score,
recompute the rank and emit the two socket events.  A request for a user id
absent from `users` reaches `user.score += 100` on `undefined` and throws;
that surfaces as the Express default 500 response, after the token was
already marked used. -/
def completeAction (s : ServerState) (rq : CompleteRequest) : CompleteResult :=
  match verifyToken rq.now rq.actionToken with
  | none => failResult s 400 .invalidActionToken
  | some decoded =>
    if decoded.userId ≠ rq.userId then failResult s 400 .invalidActionToken
    else
      match mapFind s.actionTokens rq.actionId with
      | none => failResult s 400 .tokenUsedOrExpired
      | some st =>
        if st.used then failResult s 400 .tokenUsedOrExpired
        else
          match checkRateLimit s.rateLimits rq.userId rq.now with
          | (false, _) => rateLimitedResult s
          | (true, rl2) =>
            if completionTimeSuspicious
                (effectiveCompletionTime rq.proofCompletionTime) then
              failResult { s with rateLimits := rl2 } 400
                .suspiciousCompletionTime
            else
              match findUser s.users rq.userId with
              | none =>
                failResult
                  { s with
                    actionTokens :=
                      mapSet s.actionTokens rq.actionId { st with used := true },
                    rateLimits := rl2 }
                  500 .internalError
              | some u =>
                let u2 : User :=
                  { u with score := u.score + 100,
                           totalActions := u.totalActions + 1 }
                let users2 := updateUser s.users rq.userId u2
                let newRank := rankOf users2 rq.userId rq.now
                { response :=
                    { status := 200, success := true, error := none,
                      retryAfter := none, scoreIncrement := some 100,
                      newScore := some u2.score, rank := some newRank },
                  state :=
                    { users := users2,
                      actionTokens :=
                        mapSet s.actionTokens rq.actionId
                          { st with used := true },
                      rateLimits := rl2 },
                  events :=
                    [ .leaderboardUpdate (getLeaderboard users2 10 rq.now)
                        rq.now,
                      .scoreUpdate rq.userId u.score u2.score 100 newRank ] }

/-- The token checks of the handler bundled as one predicate: the action token
verifies, is bound to the caller, is stored, and is unused (`server.js` lines
213-223). -/
def tokenOk (s : ServerState) (rq : CompleteRequest) : Bool :=
  match verifyToken rq.now rq.actionToken with
  | none => false
  | some decoded =>
    if decoded.userId = rq.userId then
      match mapFind s.actionTokens rq.actionId with
      | none => false
      | some st => !st.used
    else false

/-- The rate-limit decision the handler faces (`server.js` line 226). -/
def rateOk (s : ServerState) (rq : CompleteRequest) : Bool :=
  (checkRateLimit s.rateLimits rq.userId rq.now).1

/-- The timing decision the handler faces (`server.js` lines 235-238). -/
def timingOk (rq : CompleteRequest) : Bool :=
  !completionTimeSuspicious (effectiveCompletionTime rq.proofCompletionTime)

/-- Index of the first user record with the given id, if any. -/
def idxOfId (uid : String) : List User → Option Nat
  | [] => none
  | v :: vs => if v.id = uid then some 0 else (idxOfId uid vs).map (· + 1)

/-- Number of stored users whose score strictly exceeds `c`. -/
def countGT (c : Int) : List User → Nat
  | [] => 0
  | v :: vs => (if c < v.score then 1 else 0) + countGT c vs

/-- Number of users tied at score `c` that the store lists before the user
with id `uid` (the earlier-inserted ties). -/
def tiesBefore (uid : String) (c : Int) : List User → Nat
  | [] => 0
  | v :: vs =>
    if v.id = uid then 0
    else (if v.score = c then 1 else 0) + tiesBefore uid c vs

/-- Position a user occupies in the full stable descending ordering: the users
that sort strictly before it, namely those with a strictly greater score plus
the earlier-inserted users tied with it. -/
def sortPos (us : List User) (u : User) : Nat :=
  countGT u.score us + tiesBefore u.id u.score us

/-- The full leaderboard projection (every stored user, ranked). -/
def fullBoard (users : List User) (now : Int) : List LeaderboardEntry :=
  withRanks now 0 (sortDesc users)

/-- Modelled from the spec's words, for comparison with `rankOf`: rank is `1 +
count(entries with strictly greater score, or equal score with earlier
updatedAt)` over the full board, and `NotFound` (here `none`) for a user with
no entry. -/
def specRank (users : List User) (uid : String) (now : Int) : Option Int :=
  match (fullBoard users now).find? (fun e => e.userId == uid) with
  | none => none
  | some e =>
    some (1 + ((fullBoard users now).filter
      (fun x => decide (e.score < x.score) ||
        (decide (x.score = e.score) && decide (x.updatedAt < e.updatedAt)))).length)

/-- The timestamps at which leaderboard snapshots go out to subscribers. -/
def boardUpdateTimes : List SocketEvent → List Int
  | [] => []
  | .leaderboardUpdate _ t :: evs => t :: boardUpdateTimes evs
  | .scoreUpdate _ _ _ _ _ :: evs => boardUpdateTimes evs

/-- A demo user for the concrete scenarios below. -/
def aliceUser : User :=
  { id := "user-1", username := "Alice", password := "demo123", score := 500,
    totalActions := 3 }

/-- A second demo user, tied with `aliceUser` at 500 points but inserted
later. -/
def bobUser : User :=
  { id := "user-2", username := "Bob", password := "demo123", score := 500,
    totalActions := 7 }

/-- A signed action-token payload for Alice. -/
def alicePayload : ActionTokenPayload :=
  { actionId := "act-1", userId := "user-1", actionType := "COMPLETE_LEVEL",
    timestamp := 0, nonce := "nonce-1" }

/-- Alice's action token, issued at time 0 with the five-minute expiry. -/
def aliceToken : Jwt := .signed alicePayload 300000

/-- The stored record behind `aliceToken`. -/
def aliceStored : StoredToken :=
  { token := aliceToken, userId := "user-1", used := false, createdAt := 0 }

/-- A second payload for Alice, under action id `act-2`. -/
def alicePayload2 : ActionTokenPayload :=
  { actionId := "act-2", userId := "user-1", actionType := "COMPLETE_LEVEL",
    timestamp := 0, nonce := "nonce-2" }

/-- Alice's second action token. -/
def aliceToken2 : Jwt := .signed alicePayload2 300000

/-- The stored record behind `aliceToken2`. -/
def aliceStored2 : StoredToken :=
  { token := aliceToken2, userId := "user-1", used := false, createdAt := 0 }

/-- A server state with two users and two live tokens for Alice. -/
def demoState : ServerState :=
  { users := [aliceUser, bobUser],
    actionTokens := [("act-1", aliceStored), ("act-2", aliceStored2)],
    rateLimits := [] }

/-- A completion request for Alice whose proof claims 100 ms, below the
1000 ms minimum. -/
def tooFastRequest : CompleteRequest :=
  { userId := "user-1", actionToken := aliceToken, actionId := "act-1",
    proofCompletionTime := some 100, now := 5000 }

/-- A well-formed completion request for Alice using `act-1`. -/
def goodRequest : CompleteRequest :=
  { userId := "user-1", actionToken := aliceToken, actionId := "act-1",
    proofCompletionTime := some 5000, now := 5000 }

/-- A later well-formed completion request for Alice reusing `act-1`. -/
def goodRequestLater : CompleteRequest :=
  { userId := "user-1", actionToken := aliceToken, actionId := "act-1",
    proofCompletionTime := some 5000, now := 6000 }

/-- A well-formed completion request for Alice using `act-2`, at the same
clock instant as `goodRequest`. -/
def goodRequest2 : CompleteRequest :=
  { userId := "user-1", actionToken := aliceToken2, actionId := "act-2",
    proofCompletionTime := some 5000, now := 5000 }

/-- Alice's completion request presented only after the token expiry. -/
def expiredRequest : CompleteRequest :=
  { userId := "user-1", actionToken := aliceToken, actionId := "act-1",
    proofCompletionTime := some 5000, now := 300000 }

/-- A completion request carrying a forged action token. -/
def forgedRequest : CompleteRequest :=
  { userId := "user-1", actionToken := .invalid, actionId := "act-1",
    proofCompletionTime := some 5000, now := 300000 }

/-- `demoState` with Alice's first token already consumed. -/
def demoStateUsed : ServerState :=
  { users := [aliceUser, bobUser],
    actionTokens := [("act-1", { aliceStored with used := true }),
                     ("act-2", aliceStored2)],
    rateLimits := [] }

/-- The value of the success branch of `completeAction`, as a function of the
stored token and user record it finds. -/
def successResult (s : ServerState) (rq : CompleteRequest) (st : StoredToken)
    (u : User) : CompleteResult :=
  let u2 : User :=
    { u with score := u.score + 100, totalActions := u.totalActions + 1 }
  let users2 := updateUser s.users rq.userId u2
  let newRank := rankOf users2 rq.userId rq.now
  { response :=
      { status := 200, success := true, error := none, retryAfter := none,
        scoreIncrement := some 100, newScore := some u2.score,
        rank := some newRank },
    state :=
      { users := users2,
        actionTokens :=
          mapSet s.actionTokens rq.actionId { st with used := true },
        rateLimits := (checkRateLimit s.rateLimits rq.userId rq.now).2 },
    events :=
      [ .leaderboardUpdate (getLeaderboard users2 10 rq.now) rq.now,
        .scoreUpdate rq.userId u.score u2.score 100 newRank ] }

/-- Alice's completion request whose body carries no `proof.completionTime`. -/
def noProofRequest : CompleteRequest :=
  { userId := "user-1", actionToken := aliceToken, actionId := "act-1",
    proofCompletionTime := none, now := 5000 }

theorem mapFind_mapSet_self {β : Type} (m : List (String × β)) (k : String)
    (v : β) : mapFind (mapSet m k v) k = some v := by
  induction m with
  | nil => simp [mapSet, mapFind]
  | cons p rest ih =>
    obtain ⟨k', v'⟩ := p
    by_cases h : k' = k
    · simp [mapSet, mapFind, h]
    · simp [mapSet, mapFind, h, ih]

theorem completeAction_of_tokenFail (s : ServerState) (rq : CompleteRequest)
    (h : tokenOk s rq = false) :
    completeAction s rq = failResult s 400 .invalidActionToken ∨
    completeAction s rq = failResult s 400 .tokenUsedOrExpired := by
  unfold completeAction
  unfold tokenOk at h
  cases hv : verifyToken rq.now rq.actionToken with
  | none => simp [hv]
  | some d =>
    simp only [hv] at h ⊢
    by_cases hd : d.userId = rq.userId
    · simp only [hd, if_true, ne_eq, not_true_eq_false, if_false] at h ⊢
      cases hm : mapFind s.actionTokens rq.actionId with
      | none => simp [hm]
      | some st =>
        simp only [hm] at h ⊢
        have hu : st.used = true := by simpa using h
        simp [hu]
    · simp [hv, hd]

theorem completeAction_of_rateFail (s : ServerState) (rq : CompleteRequest)
    (ht : tokenOk s rq = true) (hr : rateOk s rq = false) :
    completeAction s rq = rateLimitedResult s := by
  unfold completeAction
  unfold tokenOk at ht
  unfold rateOk at hr
  cases hv : verifyToken rq.now rq.actionToken with
  | none => simp [hv] at ht
  | some d =>
    simp only [hv] at ht ⊢
    by_cases hd : d.userId = rq.userId
    · simp only [hd, if_true, ne_eq, not_true_eq_false, if_false] at ht ⊢
      cases hm : mapFind s.actionTokens rq.actionId with
      | none => simp [hm] at ht
      | some st =>
        simp only [hm] at ht ⊢
        have hu : st.used = false := by simpa using ht
        rcases hcr : checkRateLimit s.rateLimits rq.userId rq.now with ⟨b, rl2⟩
        rw [hcr] at hr
        simp only at hr
        subst hr
        simp [hu, hcr]
    · simp [hd] at ht

theorem completeAction_of_timingFail (s : ServerState) (rq : CompleteRequest)
    (ht : tokenOk s rq = true) (hr : rateOk s rq = true)
    (hg : timingOk rq = false) :
    completeAction s rq =
      failResult
        { s with rateLimits := (checkRateLimit s.rateLimits rq.userId rq.now).2 }
        400 .suspiciousCompletionTime := by
  unfold completeAction
  unfold tokenOk at ht
  unfold rateOk at hr
  unfold timingOk at hg
  have hsusp :
      completionTimeSuspicious (effectiveCompletionTime rq.proofCompletionTime)
        = true := by simpa using hg
  cases hv : verifyToken rq.now rq.actionToken with
  | none => simp [hv] at ht
  | some d =>
    simp only [hv] at ht ⊢
    by_cases hd : d.userId = rq.userId
    · simp only [hd, if_true, ne_eq, not_true_eq_false, if_false] at ht ⊢
      cases hm : mapFind s.actionTokens rq.actionId with
      | none => simp [hm] at ht
      | some st =>
        simp only [hm] at ht ⊢
        have hu : st.used = false := by simpa using ht
        rcases hcr : checkRateLimit s.rateLimits rq.userId rq.now with ⟨b, rl2⟩
        rw [hcr] at hr
        simp only at hr
        subst hr
        simp [hu, hcr, hsusp]
    · simp [hd] at ht

theorem completeAction_of_checksPass (s : ServerState) (rq : CompleteRequest)
    (ht : tokenOk s rq = true) (hr : rateOk s rq = true)
    (hg : timingOk rq = true) :
    ∃ st, mapFind s.actionTokens rq.actionId = some st ∧ st.used = false ∧
      ((findUser s.users rq.userId = none ∧
        completeAction s rq =
          failResult
            { s with
              actionTokens :=
                mapSet s.actionTokens rq.actionId { st with used := true },
              rateLimits := (checkRateLimit s.rateLimits rq.userId rq.now).2 }
            500 .internalError) ∨
       (∃ u, findUser s.users rq.userId = some u ∧
        completeAction s rq = successResult s rq st u)) := by
  unfold completeAction
  unfold tokenOk at ht
  unfold rateOk at hr
  unfold timingOk at hg
  have hsusp :
      completionTimeSuspicious (effectiveCompletionTime rq.proofCompletionTime)
        = false := by simpa using hg
  cases hv : verifyToken rq.now rq.actionToken with
  | none => simp [hv] at ht
  | some d =>
    simp only [hv] at ht ⊢
    by_cases hd : d.userId = rq.userId
    · simp only [hd, if_true, ne_eq, not_true_eq_false, if_false] at ht ⊢
      cases hm : mapFind s.actionTokens rq.actionId with
      | none => simp [hm] at ht
      | some st =>
        simp only [hm] at ht ⊢
        have hu : st.used = false := by simpa using ht
        refine ⟨st, rfl, hu, ?_⟩
        rcases hcr : checkRateLimit s.rateLimits rq.userId rq.now with ⟨b, rl2⟩
        rw [hcr] at hr
        simp only at hr
        subst hr
        cases hf : findUser s.users rq.userId with
        | none =>
          left
          refine ⟨rfl, ?_⟩
          simp [hu, hcr, hsusp, hf]
        | some u =>
          right
          refine ⟨u, rfl, ?_⟩
          simp [hu, hcr, hsusp, hf, successResult]
    · simp [hd] at ht

theorem checks_of_success (s : ServerState) (rq : CompleteRequest)
    (h : (completeAction s rq).response.success = true) :
    tokenOk s rq = true ∧ rateOk s rq = true ∧ timingOk rq = true := by
  by_cases ht : tokenOk s rq = true
  · by_cases hr : rateOk s rq = true
    · by_cases hg : timingOk rq = true
      · exact ⟨ht, hr, hg⟩
      · rw [completeAction_of_timingFail s rq ht hr (by simpa using hg)] at h
        simp [failResult] at h
    · rw [completeAction_of_rateFail s rq ht (by simpa using hr)] at h
      simp [rateLimitedResult] at h
  · rcases completeAction_of_tokenFail s rq (by simpa using ht) with he | he <;>
      rw [he] at h <;> simp [failResult] at h

theorem completeAction_success_shape (s : ServerState) (rq : CompleteRequest)
    (h : (completeAction s rq).response.success = true) :
    ∃ st u, mapFind s.actionTokens rq.actionId = some st ∧ st.used = false ∧
      findUser s.users rq.userId = some u ∧
      completeAction s rq = successResult s rq st u := by
  obtain ⟨ht, hr, hg⟩ := checks_of_success s rq h
  obtain ⟨st, hm, hu, hcase⟩ := completeAction_of_checksPass s rq ht hr hg
  rcases hcase with ⟨hf, he⟩ | ⟨u, hf, he⟩
  · rw [he] at h; simp [failResult] at h
  · exact ⟨st, u, hm, hu, hf, he⟩

theorem completeAction_state_of_fail (s : ServerState) (rq : CompleteRequest)
    (h : (completeAction s rq).response.success = false) :
    (completeAction s rq).state.users = s.users ∧
    (completeAction s rq).events = [] := by
  by_cases ht : tokenOk s rq = true
  · by_cases hr : rateOk s rq = true
    · by_cases hg : timingOk rq = true
      · obtain ⟨st, hm, hu, hcase⟩ := completeAction_of_checksPass s rq ht hr hg
        rcases hcase with ⟨hf, he⟩ | ⟨u, hf, he⟩
        · rw [he]; simp [failResult]
        · rw [he] at h; simp [successResult] at h
      · rw [completeAction_of_timingFail s rq ht hr (by simpa using hg)]
        simp [failResult]
    · rw [completeAction_of_rateFail s rq ht (by simpa using hr)]
      simp [rateLimitedResult]
  · rcases completeAction_of_tokenFail s rq (by simpa using ht) with he | he <;>
      rw [he] <;> simp [failResult]

/-- C1.  For every complete-action request, no score mutation is applied
unless token consumption has succeeded and both anti-cheat checks (rate limit
and completion-time) have passed: any token, rate-limit, or timing failure
returns an error response and leaves every stored user record — in particular
every score — unchanged. -/
theorem completeAction_no_mutation_without_checks (s : ServerState)
    (rq : CompleteRequest)
    (h : tokenOk s rq = false ∨ rateOk s rq = false ∨ timingOk rq = false) :
    (completeAction s rq).response.success = false ∧
    (completeAction s rq).state.users = s.users := by
  have hfail : (completeAction s rq).response.success = false := by
    by_cases hs : (completeAction s rq).response.success = true
    · obtain ⟨ht, hr, hg⟩ := checks_of_success s rq hs
      rcases h with h | h | h <;> simp_all
    · simpa using hs
  exact ⟨hfail, (completeAction_state_of_fail s rq hfail).1⟩

/-- Witness for C1 at a used token: the call errors and the user records are
untouched. -/
theorem completeAction_no_mutation_without_checks_witness :
    (completeAction demoStateUsed goodRequestLater).response.success = false ∧
    (completeAction demoStateUsed goodRequestLater).state.users =
      demoStateUsed.users :=
  completeAction_no_mutation_without_checks demoStateUsed goodRequestLater
    (Or.inl (by decide))

/-- C2 counterexample.  A valid token of Alice fails the completion-time check
(100 ms < 1000 ms): the response is the suspicious-timing error, yet the
stored token record is NOT marked used — it still has `used = false` — and
presenting the very same token again afterwards succeeds.  The claim that an
anti-cheat failure leaves the token consumed is false of the code. -/
theorem antiCheatFail_token_refunded_cx :
    (completeAction demoState tooFastRequest).response.error =
      some .suspiciousCompletionTime ∧
    mapFind (completeAction demoState tooFastRequest).state.actionTokens
      "act-1" = some aliceStored ∧
    aliceStored.used = false ∧
    (completeAction (completeAction demoState tooFastRequest).state
      goodRequestLater).response.success = true := by decide

/-- C2 amended.  If the token is valid but the proof fails an anti-cheat check
(rate limit or timing), the request is rejected and the score is unchanged,
but the token is left UNconsumed: the whole `actionTokens` store is untouched,
so the same token can be presented again. -/
theorem antiCheatFail_leaves_token_unconsumed (s : ServerState)
    (rq : CompleteRequest) (ht : tokenOk s rq = true)
    (h : rateOk s rq = false ∨ timingOk rq = false) :
    (completeAction s rq).response.success = false ∧
    (completeAction s rq).state.users = s.users ∧
    (completeAction s rq).state.actionTokens = s.actionTokens := by
  rcases h with h | h
  · rw [completeAction_of_rateFail s rq ht h]; simp [rateLimitedResult]
  · by_cases hr : rateOk s rq = true
    · rw [completeAction_of_timingFail s rq ht hr h]; simp [failResult]
    · rw [completeAction_of_rateFail s rq ht (by simpa using hr)]
      simp [rateLimitedResult]

/-- Witness for the amended C2 at the too-fast request. -/
theorem antiCheatFail_leaves_token_unconsumed_witness :
    (completeAction demoState tooFastRequest).response.success = false ∧
    (completeAction demoState tooFastRequest).state.users = demoState.users ∧
    (completeAction demoState tooFastRequest).state.actionTokens =
      demoState.actionTokens :=
  antiCheatFail_leaves_token_unconsumed demoState tooFastRequest (by decide)
    (Or.inr (by decide))

theorem completeAction_of_usedToken (s : ServerState) (rq : CompleteRequest)
    (d : ActionTokenPayload) (st : StoredToken)
    (h3 : verifyToken rq.now rq.actionToken = some d)
    (h4 : d.userId = rq.userId)
    (hm : mapFind s.actionTokens rq.actionId = some st)
    (hu : st.used = true) :
    completeAction s rq = failResult s 400 .tokenUsedOrExpired := by
  unfold completeAction
  simp [h3, h4, hm, hu]

/-- C3.  Once a token has been successfully consumed, a second complete-action
submission of the same action id by its owner (with a still-verifying token)
returns the 400 already-used error and changes nothing: the entire state —
in particular the user's score — is exactly the state after the first call,
so consumption succeeds at most once per token. -/
theorem consumedToken_second_submission_rejected (s : ServerState)
    (rq rq' : CompleteRequest) (d' : ActionTokenPayload)
    (h1 : (completeAction s rq).response.success = true)
    (h2 : rq'.actionId = rq.actionId)
    (h3 : verifyToken rq'.now rq'.actionToken = some d')
    (h4 : d'.userId = rq'.userId) :
    (completeAction (completeAction s rq).state rq').response.status = 400 ∧
    (completeAction (completeAction s rq).state rq').response.error =
      some .tokenUsedOrExpired ∧
    (completeAction (completeAction s rq).state rq').state =
      (completeAction s rq).state := by
  obtain ⟨st, u, hm, hu, hf, he⟩ := completeAction_success_shape s rq h1
  have htok :
      mapFind (completeAction s rq).state.actionTokens rq'.actionId =
        some { st with used := true } := by
    rw [he, h2]
    simp only [successResult]
    exact mapFind_mapSet_self _ _ _
  rw [completeAction_of_usedToken (completeAction s rq).state rq' d'
    { st with used := true } h3 h4 htok rfl]
  simp [failResult]

/-- Witness for C3: Alice's token is consumed at 5000 ms and resubmitted at
6000 ms. -/
theorem consumedToken_second_submission_rejected_witness :
    (completeAction (completeAction demoState goodRequest).state
      goodRequestLater).response.status = 400 ∧
    (completeAction (completeAction demoState goodRequest).state
      goodRequestLater).response.error = some .tokenUsedOrExpired ∧
    (completeAction (completeAction demoState goodRequest).state
      goodRequestLater).state = (completeAction demoState goodRequest).state :=
  consumedToken_second_submission_rejected demoState goodRequest
    goodRequestLater alicePayload (by decide) rfl (by decide) rfl

/-- C4 counterexample.  Alice's token is presented at `now = 300000`, past its
expiry 300000: the response is the generic invalid-action-token error — byte
for byte the same response a forged blob receives — and not the only error
whose message mentions expiry (`tokenUsedOrExpired`); the same happens when
the stored record is already marked used.  No distinct `TokenExpired` outcome
exists in the code. -/
theorem expiredToken_error_cx :
    (completeAction demoState expiredRequest).response.error =
      some .invalidActionToken ∧
    (completeAction demoState expiredRequest).response =
      (completeAction demoState forgedRequest).response ∧
    (completeAction demoState expiredRequest).response.error ≠
      some .tokenUsedOrExpired ∧
    (completeAction demoStateUsed expiredRequest).response.error =
      some .invalidActionToken := by decide

/-- C4 amended.  A consume attempt at any time at or past the signed expiry is
rejected with the generic invalid-action-token error (indistinguishable from a
forged token), regardless of the stored `used` flag — the conclusion holds for
every store state — and the state is unchanged. -/
theorem expiredToken_rejected_as_invalid (s : ServerState)
    (rq : CompleteRequest) (p : ActionTokenPayload) (e : Int)
    (htok : rq.actionToken = .signed p e) (hexp : e ≤ rq.now) :
    completeAction s rq = failResult s 400 .invalidActionToken := by
  have hv : verifyToken rq.now rq.actionToken = none := by
    rw [htok]; simp only [verifyToken]; rw [if_neg (by omega)]
  unfold completeAction
  simp [hv]

/-- Witness for the amended C4 at the expired request. -/
theorem expiredToken_rejected_as_invalid_witness :
    completeAction demoState expiredRequest =
      failResult demoState 400 .invalidActionToken :=
  expiredToken_rejected_as_invalid demoState expiredRequest alicePayload
    300000 rfl (by decide)

/-- C7.  The rate check rejects exactly when the count of the user's recorded
timestamps lying within the 60000 ms window of `now` has reached 10 (stale
entries never count, being filtered out on each check), and once the window
has elapsed with no new actions — every recorded timestamp at least 60000 ms
old — the user is accepted again. -/
theorem checkRateLimit_window (rl : List (String × List Int)) (uid : String)
    (now : Int) :
    ((checkRateLimit rl uid now).1 = false ↔
      10 ≤ (recentTimes now ((mapFind rl uid).getD [])).length) ∧
    ((∀ t ∈ (mapFind rl uid).getD [], t + 60000 ≤ now) →
      (checkRateLimit rl uid now).1 = true) := by
  constructor
  · unfold checkRateLimit
    by_cases h : 10 ≤ (recentTimes now ((mapFind rl uid).getD [])).length
    · simp [h]
    · simp [h]
  · intro hall
    have hnil : recentTimes now ((mapFind rl uid).getD []) = [] := by
      unfold recentTimes
      rw [List.filter_eq_nil_iff]
      intro t htmem
      have := hall t htmem
      simp only [decide_eq_true_eq]
      omega
    unfold checkRateLimit
    simp [hnil]

/-- Witness for C7: a user whose only recorded action is 70000 ms old is
accepted again. -/
theorem checkRateLimit_window_witness :
    (checkRateLimit [("user-1", [0])] "user-1" 70000).1 = true :=
  (checkRateLimit_window [("user-1", [0])] "user-1" 70000).2 (by decide)

/-- C8.  Past the token and rate checks, the handler answers with the
suspicious-timing error exactly when the claimed elapsed time is strictly
below 1000 ms or strictly above 300000 ms; elapsed times equal to either
bound are not suspicious. -/
theorem timing_check_bounds (s : ServerState) (rq : CompleteRequest)
    (ht : tokenOk s rq = true) (hr : rateOk s rq = true) :
    ((completeAction s rq).response.error = some .suspiciousCompletionTime ↔
      (effectiveCompletionTime rq.proofCompletionTime < 1000 ∨
       300000 < effectiveCompletionTime rq.proofCompletionTime)) ∧
    completionTimeSuspicious 1000 = false ∧
    completionTimeSuspicious 300000 = false := by
  refine ⟨⟨?_, ?_⟩, by decide, by decide⟩
  · intro herr
    by_cases hg : timingOk rq = true
    · obtain ⟨st, hm, hu, hcase⟩ := completeAction_of_checksPass s rq ht hr hg
      rcases hcase with ⟨hf, he⟩ | ⟨u, hf, he⟩ <;> rw [he] at herr <;>
        simp [failResult, successResult] at herr
    · have hg' :
          completionTimeSuspicious
            (effectiveCompletionTime rq.proofCompletionTime) = true := by
        unfold timingOk at hg
        simpa using hg
      unfold completionTimeSuspicious at hg'
      simp only [Bool.or_eq_true, decide_eq_true_eq] at hg'
      exact hg'
  · intro hsusp
    have hg : timingOk rq = false := by
      unfold timingOk completionTimeSuspicious
      rcases hsusp with h | h <;> simp [h]
    rw [completeAction_of_timingFail s rq ht hr hg]
    simp [failResult]

/-- Witness for C8 at Alice's too-fast request (claimed 100 ms). -/
theorem timing_check_bounds_witness :
    ((completeAction demoState tooFastRequest).response.error =
        some .suspiciousCompletionTime ↔
      (effectiveCompletionTime tooFastRequest.proofCompletionTime < 1000 ∨
       300000 < effectiveCompletionTime tooFastRequest.proofCompletionTime)) ∧
    completionTimeSuspicious 1000 = false ∧
    completionTimeSuspicious 300000 = false :=
  timing_check_bounds demoState tooFastRequest (by decide) (by decide)

/-- C9 counterexample.  Two successful completions of two distinct live tokens
of Alice, both handled at clock 5000 ms, each immediately emit their own
leaderboard snapshot: two snapshots go out with the same timestamp, so
snapshots are not coalesced to at most one per 1000 ms interval. -/
theorem broadcast_not_coalesced_cx :
    boardUpdateTimes
      ((completeAction demoState goodRequest).events ++
       (completeAction (completeAction demoState goodRequest).state
         goodRequest2).events) = [5000, 5000] := by decide

/-- C9 amended.  The demo performs no coalescing at all: every successful
complete-action immediately emits exactly one leaderboard snapshot (stamped
with the request's own clock), and a failed one emits nothing. -/
theorem broadcast_per_update (s : ServerState) (rq : CompleteRequest) :
    ((completeAction s rq).response.success = true →
      boardUpdateTimes (completeAction s rq).events = [rq.now]) ∧
    ((completeAction s rq).response.success = false →
      (completeAction s rq).events = []) := by
  constructor
  · intro h
    obtain ⟨st, u, hm, hu, hf, he⟩ := completeAction_success_shape s rq h
    rw [he]
    simp [successResult, boardUpdateTimes]
  · intro h
    exact (completeAction_state_of_fail s rq h).2

/-- Witness for the amended C9 at Alice's successful completion. -/
theorem broadcast_per_update_witness :
    boardUpdateTimes (completeAction demoState goodRequest).events =
      [goodRequest.now] :=
  (broadcast_per_update demoState goodRequest).1 (by decide)

/-- C10.  A request whose proof omits `completionTime` (or supplies the falsy
`0`) is timed against the 10000 ms default, which lies inside the accepted
bounds, so such a request can never be rejected as suspicious timing. -/
theorem missing_proof_defaults (s : ServerState) (rq : CompleteRequest)
    (h : rq.proofCompletionTime = none ∨ rq.proofCompletionTime = some 0) :
    effectiveCompletionTime rq.proofCompletionTime = 10000 ∧
    (completeAction s rq).response.error ≠ some .suspiciousCompletionTime := by
  have heff : effectiveCompletionTime rq.proofCompletionTime = 10000 := by
    rcases h with h | h <;> rw [h] <;> rfl
  refine ⟨heff, ?_⟩
  have hg : timingOk rq = true := by
    unfold timingOk
    rw [heff]
    decide
  intro herr
  by_cases ht : tokenOk s rq = true
  · by_cases hr : rateOk s rq = true
    · obtain ⟨st, hm, hu, hcase⟩ := completeAction_of_checksPass s rq ht hr hg
      rcases hcase with ⟨hf, he⟩ | ⟨u, hf, he⟩ <;> rw [he] at herr <;>
        simp [failResult, successResult] at herr
    · rw [completeAction_of_rateFail s rq ht (by simpa using hr)] at herr
      simp [rateLimitedResult] at herr
  · rcases completeAction_of_tokenFail s rq (by simpa using ht) with he | he <;>
      rw [he] at herr <;> simp [failResult] at herr

/-- Witness for C10 at Alice's proof-less request. -/
theorem missing_proof_defaults_witness :
    effectiveCompletionTime noProofRequest.proofCompletionTime = 10000 ∧
    (completeAction demoState noProofRequest).response.error ≠
      some .suspiciousCompletionTime :=
  missing_proof_defaults demoState noProofRequest (Or.inl rfl)

theorem mem_insertDesc (w u : User) (l : List User) :
    w ∈ insertDesc u l ↔ w = u ∨ w ∈ l := by
  induction l with
  | nil => simp [insertDesc]
  | cons v vs ih =>
    by_cases hc : u.score < v.score
    · simp only [insertDesc, if_pos hc, List.mem_cons, ih]
      tauto
    · simp only [insertDesc, if_neg hc, List.mem_cons]

theorem mem_sortDesc (w : User) (l : List User) :
    w ∈ sortDesc l ↔ w ∈ l := by
  induction l with
  | nil => simp [sortDesc]
  | cons v vs ih =>
    simp only [sortDesc, mem_insertDesc, List.mem_cons, ih]

theorem countGT_insertDesc (c : Int) (u : User) (l : List User) :
    countGT c (insertDesc u l) = (if c < u.score then 1 else 0) + countGT c l := by
  induction l with
  | nil => simp [insertDesc, countGT]
  | cons v vs ih =>
    by_cases hc : u.score < v.score
    · simp only [insertDesc, if_pos hc, countGT, ih]
      omega
    · simp only [insertDesc, if_neg hc, countGT]

theorem countGT_sortDesc (c : Int) (l : List User) :
    countGT c (sortDesc l) = countGT c l := by
  induction l with
  | nil => rfl
  | cons v vs ih => simp only [sortDesc, countGT_insertDesc, countGT, ih]

theorem countGT_eq_zero (c : Int) (l : List User)
    (h : ∀ x ∈ l, x.score ≤ c) : countGT c l = 0 := by
  induction l with
  | nil => rfl
  | cons v vs ih =>
    have hv : v.score ≤ c := h v (List.mem_cons_self v vs)
    have htl : countGT c vs = 0 := ih (fun x hx => h x (List.mem_cons_of_mem v hx))
    simp only [countGT, htl, if_neg (by omega : ¬c < v.score)]

theorem length_insertDesc (u : User) (l : List User) :
    (insertDesc u l).length = l.length + 1 := by
  induction l with
  | nil => rfl
  | cons v vs ih =>
    by_cases hc : u.score < v.score
    · simp [insertDesc, if_pos hc, ih]
    · simp [insertDesc, if_neg hc]

theorem length_sortDesc (l : List User) : (sortDesc l).length = l.length := by
  induction l with
  | nil => rfl
  | cons v vs ih => simp [sortDesc, length_insertDesc, ih]

theorem pairwise_insertDesc (u : User) (l : List User)
    (h : List.Pairwise (fun a b => b.score ≤ a.score) l) :
    List.Pairwise (fun a b => b.score ≤ a.score) (insertDesc u l) := by
  induction l with
  | nil => simp [insertDesc]
  | cons v vs ih =>
    rcases List.pairwise_cons.mp h with ⟨hv, hvs⟩
    by_cases hc : u.score < v.score
    · rw [insertDesc, if_pos hc]
      refine List.pairwise_cons.mpr ⟨?_, ih hvs⟩
      intro w hw
      rcases (mem_insertDesc w u vs).mp hw with rfl | hwvs
      · omega
      · exact hv w hwvs
    · rw [insertDesc, if_neg hc]
      refine List.pairwise_cons.mpr ⟨?_, h⟩
      intro w hw
      rcases List.mem_cons.mp hw with rfl | hwvs
      · omega
      · have := hv w hwvs
        omega

theorem sortDesc_sorted (l : List User) :
    List.Pairwise (fun a b => b.score ≤ a.score) (sortDesc l) := by
  induction l with
  | nil => simp [sortDesc]
  | cons v vs ih => exact pairwise_insertDesc v (sortDesc vs) ih

theorem length_withRanks (now : Int) (i : Nat) (l : List User) :
    (withRanks now i l).length = l.length := by
  induction l generalizing i with
  | nil => rfl
  | cons u us ih => simp [withRanks, ih]

theorem mem_withRanks (now : Int) (i : Nat) (l : List User)
    (e : LeaderboardEntry) (h : e ∈ withRanks now i l) :
    (∃ u ∈ l, e.score = u.score) ∧ e.updatedAt = now := by
  induction l generalizing i with
  | nil => simp [withRanks] at h
  | cons u us ih =>
    rcases List.mem_cons.mp h with rfl | htl
    · exact ⟨⟨u, List.mem_cons_self u us, rfl⟩, rfl⟩
    · obtain ⟨⟨u', hu', hs⟩, ht⟩ := ih (i + 1) htl
      exact ⟨⟨u', List.mem_cons_of_mem u hu', hs⟩, ht⟩

theorem pairwise_withRanks (now : Int) (i : Nat) (l : List User)
    (h : List.Pairwise (fun a b => b.score ≤ a.score) l) :
    List.Pairwise
      (fun a b : LeaderboardEntry =>
        b.score ≤ a.score ∧ (b.score = a.score → a.updatedAt ≤ b.updatedAt))
      (withRanks now i l) := by
  induction l generalizing i with
  | nil => simp [withRanks]
  | cons u us ih =>
    rcases List.pairwise_cons.mp h with ⟨hu, hus⟩
    refine List.pairwise_cons.mpr ⟨?_, ih (i + 1) hus⟩
    intro e he
    obtain ⟨⟨u', hu', hs⟩, ht⟩ := mem_withRanks now (i + 1) us e he
    constructor
    · simp only [hs]
      exact hu u' hu'
    · intro _
      simp [ht]

theorem length_jsSliceTo {α : Type} (l : List α) (e : Int) :
    (jsSliceTo l e).length =
      if 0 ≤ e then min e.toNat l.length else ((l.length : Int) + e).toNat := by
  unfold jsSliceTo
  by_cases h : 0 ≤ e
  · simp [h]
  · have hlen : ((l.length : Int) + e).toNat ≤ l.length := by omega
    simp [h, List.length_take]
    omega

/-- C5 counterexample.  `getLeaderboard` on a two-user store with limit `-1`
returns a nonempty sequence (JavaScript `slice(0, -1)` drops only the last
element), although `-1 ≤ 0`: the claimed `n ≤ 0 → empty` is false of the
code. -/
theorem topn_nonpositive_cx :
    (-1 : Int) ≤ 0 ∧ getLeaderboard [aliceUser, bobUser] (-1) 0 ≠ [] := by
  decide

/-- C5 amended.  For every store state, `getLeaderboard` is sorted descending
by score — and, degenerately, by ascending `updatedAt` among ties, since every
entry carries the query-time stamp — limit `0` yields the empty sequence, and
the output length is the limit clamped to the store size for nonnegative
limits, while a negative limit `n` drops the last `|n|` entries instead of
yielding the empty sequence. -/
theorem getLeaderboard_sorted_and_length (users : List User) (n : Int)
    (now : Int) :
    List.Pairwise
      (fun a b : LeaderboardEntry =>
        b.score ≤ a.score ∧ (b.score = a.score → a.updatedAt ≤ b.updatedAt))
      (getLeaderboard users n now) ∧
    getLeaderboard users 0 now = [] ∧
    (getLeaderboard users n now).length =
      if 0 ≤ n then min n.toNat users.length
      else ((users.length : Int) + n).toNat := by
  refine ⟨?_, ?_, ?_⟩
  · apply pairwise_withRanks
    have hsorted := sortDesc_sorted users
    unfold jsSliceTo
    by_cases h : 0 ≤ n
    · rw [if_pos h]
      exact hsorted.sublist (List.take_sublist _ _)
    · rw [if_neg h]
      exact hsorted.sublist (List.take_sublist _ _)
  · simp [getLeaderboard, jsSliceTo, withRanks]
  · rw [getLeaderboard, length_withRanks, length_jsSliceTo, length_sortDesc]

theorem mem_of_idxOfId (uid : String) (l : List User) (j : Nat)
    (h : idxOfId uid l = some j) : ∃ w ∈ l, w.id = uid := by
  induction l generalizing j with
  | nil => simp [idxOfId] at h
  | cons v vs ih =>
    by_cases hv : v.id = uid
    · exact ⟨v, List.mem_cons_self v vs, hv⟩
    · rw [idxOfId, if_neg hv] at h
      rcases Option.map_eq_some'.mp h with ⟨j', hj', _⟩
      obtain ⟨w, hw, hwid⟩ := ih j' hj'
      exact ⟨w, List.mem_cons_of_mem v hw, hwid⟩

theorem idxOfId_eq_none (uid : String) (l : List User) :
    idxOfId uid l = none ↔ ∀ w ∈ l, w.id ≠ uid := by
  induction l with
  | nil => simp [idxOfId]
  | cons v vs ih =>
    by_cases hv : v.id = uid
    · simp [idxOfId, hv]
    · rw [idxOfId, if_neg hv]
      simp only [Option.map_eq_none', ih, List.mem_cons]
      constructor
      · rintro h w (rfl | hw)
        · exact hv
        · exact h w hw
      · intro h w hw
        exact h w (Or.inr hw)

theorem idxOfId_take (uid : String) (l : List User) (j k : Nat)
    (h : idxOfId uid l = some j) (hk : j < k) :
    idxOfId uid (l.take k) = some j := by
  induction l generalizing j k with
  | nil => simp [idxOfId] at h
  | cons v vs ih =>
    cases k with
    | zero => omega
    | succ k' =>
      rw [List.take_succ_cons]
      by_cases hv : v.id = uid
      · rw [idxOfId, if_pos hv] at h ⊢
        exact h
      · rw [idxOfId, if_neg hv] at h ⊢
        rcases Option.map_eq_some'.mp h with ⟨j', hj', rfl⟩
        rw [ih j' k' hj' (by omega)]
        rfl

theorem idxOfId_take_none (uid : String) (l : List User) (k : Nat)
    (h : idxOfId uid l = none) : idxOfId uid (l.take k) = none := by
  rw [idxOfId_eq_none] at h ⊢
  intro w hw
  exact h w (List.mem_of_mem_take hw)

theorem entryIdx_withRanks (uid : String) (now : Int) (i : Nat)
    (l : List User) :
    entryIdx uid (withRanks now i l) = idxOfId uid l := by
  induction l generalizing i with
  | nil => rfl
  | cons u us ih =>
    by_cases hu : u.id = uid
    · simp [withRanks, entryIdx, idxOfId, hu]
    · simp only [withRanks, entryIdx, idxOfId, hu, if_false, ih]

theorem nodup_id_inj (l : List User) (hnd : (l.map User.id).Nodup)
    (w u : User) (hw : w ∈ l) (hu : u ∈ l) (hid : w.id = u.id) : w = u := by
  induction l with
  | nil => simp at hw
  | cons v vs ih =>
    rcases List.nodup_cons.mp hnd with ⟨hvid, hnd'⟩
    rcases List.mem_cons.mp hw with rfl | hw'
    · rcases List.mem_cons.mp hu with rfl | hu'
      · rfl
      · exact absurd (hid ▸ List.mem_map_of_mem User.id hu') hvid
    · rcases List.mem_cons.mp hu with rfl | hu'
      · exact absurd (hid ▸ List.mem_map_of_mem User.id hw') hvid
      · exact ih hnd' hw' hu'

theorem idx_insertDesc_self (v : User) (L : List User)
    (hs : List.Pairwise (fun a b => b.score ≤ a.score) L)
    (hid : ∀ w ∈ L, w.id ≠ v.id) :
    idxOfId v.id (insertDesc v L) = some (countGT v.score L) := by
  induction L with
  | nil => simp [insertDesc, idxOfId, countGT]
  | cons w L' ih =>
    rcases List.pairwise_cons.mp hs with ⟨hw, hs'⟩
    by_cases hc : v.score < w.score
    · rw [insertDesc, if_pos hc]
      rw [idxOfId, if_neg (hid w (List.mem_cons_self w L'))]
      rw [ih hs' (fun x hx => hid x (List.mem_cons_of_mem w hx))]
      simp only [Option.map_some']
      congr 1
      simp only [countGT, if_pos hc]
      omega
    · rw [insertDesc, if_neg hc]
      have h0 : countGT v.score (w :: L') = 0 := by
        apply countGT_eq_zero
        intro x hx
        rcases List.mem_cons.mp hx with rfl | hx'
        · omega
        · have := hw x hx'
          omega
      rw [h0, idxOfId, if_pos rfl]

theorem idx_insertDesc_above (v u : User) (hne : u.id ≠ v.id)
    (hlt : v.score < u.score) :
    ∀ L : List User, (∀ w ∈ L, w.id = u.id → w = u) →
      List.Pairwise (fun a b => b.score ≤ a.score) L →
      ∀ j, idxOfId u.id L = some j →
      idxOfId u.id (insertDesc v L) = some j := by
  intro L
  induction L with
  | nil => intro _ _ j hj; simp [idxOfId] at hj
  | cons w L' ih =>
    intro hL hs j hj
    rcases List.pairwise_cons.mp hs with ⟨hw, hs'⟩
    by_cases hwid : w.id = u.id
    · have hwu : w = u := hL w (List.mem_cons_self _ _) hwid
      rw [idxOfId, if_pos hwid] at hj
      rw [insertDesc, if_pos (by rw [hwu]; omega : v.score < w.score)]
      rw [idxOfId, if_pos hwid]
      exact hj
    · rw [idxOfId, if_neg hwid] at hj
      rcases Option.map_eq_some'.mp hj with ⟨j', hj', rfl⟩
      by_cases hc : v.score < w.score
      · rw [insertDesc, if_pos hc]
        rw [idxOfId, if_neg hwid]
        rw [ih (fun x hx hxid => hL x (List.mem_cons_of_mem w hx) hxid) hs'
          j' hj']
        rfl
      · exfalso
        obtain ⟨w', hw', hw'id⟩ := mem_of_idxOfId u.id L' j' hj'
        have hw'u : w' = u := hL w' (List.mem_cons_of_mem w hw') hw'id
        have hle := hw w' hw'
        rw [hw'u] at hle
        omega

theorem idx_insertDesc_below (v u : User) (hne : u.id ≠ v.id)
    (hle : u.score ≤ v.score) :
    ∀ L : List User, (∀ w ∈ L, w.id = u.id → w = u) →
      ∀ j, idxOfId u.id L = some j →
      idxOfId u.id (insertDesc v L) = some (j + 1) := by
  intro L
  induction L with
  | nil => intro _ j hj; simp [idxOfId] at hj
  | cons w L' ih =>
    intro hL j hj
    by_cases hwid : w.id = u.id
    · have hwu : w = u := hL w (List.mem_cons_self _ _) hwid
      rw [idxOfId, if_pos hwid] at hj
      have hj0 : j = 0 := by simpa using hj.symm
      subst hj0
      rw [insertDesc, if_neg (by rw [hwu]; omega : ¬v.score < w.score)]
      rw [idxOfId, if_neg (fun h => hne h.symm)]
      rw [idxOfId, if_pos hwid]
      rfl
    · rw [idxOfId, if_neg hwid] at hj
      rcases Option.map_eq_some'.mp hj with ⟨j', hj', rfl⟩
      by_cases hc : v.score < w.score
      · rw [insertDesc, if_pos hc]
        rw [idxOfId, if_neg hwid]
        rw [ih (fun x hx hxid => hL x (List.mem_cons_of_mem w hx) hxid) j' hj']
        rfl
      · rw [insertDesc, if_neg hc]
        rw [idxOfId, if_neg (fun h => hne h.symm)]
        rw [idxOfId, if_neg hwid]
        rw [hj']
        rfl

theorem idx_sortDesc (u : User) :
    ∀ us : List User, (us.map User.id).Nodup → u ∈ us →
      idxOfId u.id (sortDesc us) = some (sortPos us u) := by
  intro us
  induction us with
  | nil => intro _ h; simp at h
  | cons v vs ih =>
    intro hnd hmem
    rcases List.nodup_cons.mp hnd with ⟨hvid, hnd'⟩
    by_cases hv : v.id = u.id
    · have huv : u = v := by
        rcases List.mem_cons.mp hmem with rfl | hmem'
        · rfl
        · exact absurd (hv ▸ List.mem_map_of_mem User.id hmem') hvid
      subst huv
      rw [sortDesc]
      rw [idx_insertDesc_self u (sortDesc vs) (sortDesc_sorted vs)
        (fun w hw h =>
          hvid (h ▸ List.mem_map_of_mem User.id ((mem_sortDesc w vs).mp hw)))]
      rw [countGT_sortDesc]
      congr 1
      simp only [sortPos, countGT, tiesBefore,
        if_neg (by omega : ¬u.score < u.score)]
      simp
    · have hmem' : u ∈ vs := by
        rcases List.mem_cons.mp hmem with rfl | h
        · exact absurd rfl hv
        · exact h
      have hL : ∀ w ∈ sortDesc vs, w.id = u.id → w = u := fun w hw hid =>
        nodup_id_inj vs hnd' w u ((mem_sortDesc w vs).mp hw) hmem' hid
      have hj := ih hnd' hmem'
      have hne : u.id ≠ v.id := fun h => hv h.symm
      rw [sortDesc]
      rcases lt_or_le v.score u.score with hlt | hle
      · rw [idx_insertDesc_above v u hne hlt (sortDesc vs) hL
          (sortDesc_sorted vs) _ hj]
        congr 1
        simp only [sortPos, countGT, tiesBefore, if_neg hv,
          if_neg (by omega : ¬u.score < v.score),
          if_neg (by omega : ¬v.score = u.score)]
        omega
      · rw [idx_insertDesc_below v u hne hle (sortDesc vs) hL _ hj]
        congr 1
        rcases lt_or_eq_of_le hle with hlt2 | heq
        · simp only [sortPos, countGT, tiesBefore, if_neg hv,
            if_pos hlt2, if_neg (by omega : ¬v.score = u.score)]
          omega
        · simp only [sortPos, countGT, tiesBefore, if_neg hv,
            if_neg (by omega : ¬u.score < v.score),
            if_pos (by omega : v.score = u.score)]
          omega

theorem rankOf_absent (users : List User) (uid : String) (now : Int)
    (h : ∀ v ∈ users, v.id ≠ uid) : rankOf users uid now = 0 := by
  have h1 : idxOfId uid (sortDesc users) = none :=
    (idxOfId_eq_none uid (sortDesc users)).mpr
      (fun w hw => h w ((mem_sortDesc w users).mp hw))
  have h2 : idxOfId uid ((sortDesc users).take (100 : Int).toNat) = none :=
    idxOfId_take_none _ _ _ h1
  unfold rankOf jsFindIndexEntry getLeaderboard jsSliceTo
  rw [if_pos (by omega : (0 : Int) ≤ 100)]
  rw [entryIdx_withRanks, h2]
  rfl

/-- C6 counterexample.  Alice and Bob are tied at 500 points; every leaderboard
entry carries the same query-time `updatedAt`, so the spec's formula `1 +
count(strictly greater, or equal with earlier updatedAt)` yields rank 1 for
Bob, while the code ranks Bob 2 (position in the stable order).  Moreover a
user with no entry gets the integer rank 0 from the code rather than a
NotFound outcome (`specRank` returns `none` there). -/
theorem rank_formula_cx :
    specRank [aliceUser, bobUser] "user-2" 0 = some 1 ∧
    rankOf [aliceUser, bobUser] "user-2" 0 = 2 ∧
    (2 : Int) ≠ 1 ∧
    specRank [aliceUser, bobUser] "ghost" 0 = none ∧
    rankOf [aliceUser, bobUser] "ghost" 0 = 0 := by decide

/-- C6 amended.  For a store with distinct user ids, the code's rank of a
stored user whose position is within the 100-entry window is `1 + (number of
users sorting strictly before it)`, where a user sorts before another iff it
has a strictly greater score or an equal score and an earlier position in the
store (insertion order, not updatedAt); a user with no entry gets rank 0
rather than a NotFound outcome. -/
theorem rankOf_position (users : List User) (u : User) (now : Int)
    (hnd : (users.map User.id).Nodup) (hmem : u ∈ users)
    (hpos : sortPos users u < 100) :
    rankOf users u.id now = (sortPos users u : Int) + 1 ∧
    (∀ uid, (∀ v ∈ users, v.id ≠ uid) → rankOf users uid now = 0) := by
  constructor
  · have hj : idxOfId u.id (sortDesc users) = some (sortPos users u) :=
      idx_sortDesc u users hnd hmem
    have ht : idxOfId u.id ((sortDesc users).take (100 : Int).toNat) =
        some (sortPos users u) :=
      idxOfId_take _ _ _ _ hj (by omega)
    unfold rankOf jsFindIndexEntry getLeaderboard jsSliceTo
    rw [if_pos (by omega : (0 : Int) ≤ 100)]
    rw [entryIdx_withRanks, ht]
  · intro uid h
    exact rankOf_absent users uid now h

/-- Witness for the amended C6: Bob, tied with the earlier-inserted Alice,
is ranked `1 + 1 = 2`. -/
theorem rankOf_position_witness :
    rankOf [aliceUser, bobUser] bobUser.id 0 =
      (sortPos [aliceUser, bobUser] bobUser : Int) + 1 :=
  (rankOf_position [aliceUser, bobUser] bobUser 0 (by decide) (by decide)
    (by decide)).1
